import Mathlib

/-!
Verification of the filesets synchronisation engine (src/main.py, src/misc.py).

The development shallowly embeds the data model and the operations of the
program: the persisted manifest is an association list from virtual path to
file record (a Python dict with unique keys, insertion ordered), filesystem
facts observed during a scan (mtime, size, content bytes) are carried by the
candidate records the mapping resolver produces, and the murmur128 fingerprint
of the external mmh3 library is a parameter of the functions that hash.
Timestamps are the strings the program itself compares and stores.
-/

/-! ## Lexicographic string comparison

Python compares strings by code points, lexicographically.  The sort key
comparison in sync (line 46 of main.py) uses this order.  Lean's built-in
decidable String order does not reduce well in the kernel, so the order is
defined here directly on the character lists; it agrees with Python's. -/

/-- Strict lexicographic order on character lists, by code point: this is the
comparison Python applies to the sort keys in sync. -/
def charsLt : List Char → List Char → Bool
  | [], [] => false
  | [], _ :: _ => true
  | _ :: _, [] => false
  | a :: as, b :: bs => if a < b then true else if b < a then false else charsLt as bs

/-- Strict lexicographic order on strings (Python string comparison). -/
def strLt (a b : String) : Bool := charsLt a.data b.data

/-! ## Data model -/

/-- FileRecord: one manifest entry, with the fields written at lines 72-79 of
main.py.  The transient marker written as presence of the key "exist" in the
Python dict is modelled as a Boolean field, absence being `false`. -/
structure FileRecord where
  hash : String
  mtime : String
  checked : String
  hashed : String
  exist : Bool
  size : Nat
deriving Repr, DecidableEq

/-- Manifest: the persisted mapping from virtual path to FileRecord, a Python
dict embedded as an insertion-ordered association list with unique keys. -/
abbrev Manifest := List (String × FileRecord)

/-- dinsert embeds Python dict assignment `d[k] = v`: an existing key is
overwritten in place, a new key is appended at the end. -/
def dinsert {β : Type} : List (String × β) → String → β → List (String × β)
  | [], k, v => [(k, v)]
  | e :: rest, k, v => if e.1 = k then (k, v) :: rest else e :: dinsert rest k v

/-- mlook embeds Python dict lookup `d[k]` / the test `k in d`. -/
def mlook (data : Manifest) (p : String) : Option FileRecord := List.lookup p data

/-! ## Hasher (hash_file, main.py lines 17-22, and the hex formatting) -/

/-- hex32 embeds the Python format expression `f"{v:032x}"` applied to the
128-bit murmur fingerprint: lowercase hex digits, zero-padded to 32 columns. -/
def hex32 (n : Nat) : String :=
  let s := Nat.toDigits 16 n
  String.mk (List.replicate (32 - s.length) '0' ++ s)

/-- hash_file (main.py lines 17-22): any algorithm name other than murmur128
raises `ValueError(f"Unsupported algorithm: {algo}")`; otherwise the file
content is read whole and fingerprinted.  The external mmh3.hash128 function
is the parameter `mmh`; file content is a byte list. -/
def hash_file (mmh : List Nat → Nat) (content : List Nat) (algo : String) :
    Except String String :=
  if algo ≠ "murmur128" then Except.error ("Unsupported algorithm: " ++ algo)
  else Except.ok (hex32 (mmh content))

/-! ## Sync engine (main.py lines 25-102) -/

/-- Candidate: one (real file, virtual path) pair produced by the mapping
resolver walk, together with the filesystem facts sync reads for it.  `mtime`
carries the formatted string `f"{os.path.getmtime(p):.6f}"`, which is the only
form in which sync compares or stores the modification time. -/
structure Cand where
  virt : String
  mtime : String
  size : Nat
  content : List Nat
deriving Repr, DecidableEq

/-- Counters accumulated by sync (main.py line 30). -/
structure SyncCounts where
  found : Nat
  added : Nat
  deleted : Nat
  existed : Nat
  changed : Nat
deriving Repr, DecidableEq

/-- All five sync counters start at zero. -/
def initCounts : SyncCounts := ⟨0, 0, 0, 0, 0⟩

/-- Sentinel sort key used for candidates with no manifest record
(main.py line 46). -/
def sentinelKey : String := "1900-01-01T00:00:00"

/-- sortKey embeds the lambda of main.py line 46: the stored `checked`
timestamp when a record exists for the virtual path, else the sentinel. -/
def sortKey (data : Manifest) (c : Cand) : String :=
  match mlook data c.virt with
  | some r => r.checked
  | none => sentinelKey

/-- candLe is the comparison under which Python's stable sort orders the
candidates: `a` may precede `b` iff the key of `b` is not below the key of
`a`. -/
def candLe (data : Manifest) (a b : Cand) : Bool :=
  !(strLt (sortKey data b) (sortKey data a))

/-- sortCandidates embeds main.py line 46: the candidate list sorted by the
`checked` timestamp of the existing record, sentinel for new paths. -/
def sortCandidates (data : Manifest) (cs : List Cand) : List Cand :=
  cs.mergeSort (candLe data)

/-- step embeds one iteration of the sync loop (main.py lines 48-81) at
timestamp `now`: fast-confirm when a record exists, fast mode is on and both
mtime and size match; otherwise hash and classify as changed / existed /
added, overwriting the record. -/
def step (mmh : List Nat → Nat) (full : Bool) (now : String)
    (data : Manifest) (cnt : SyncCounts) (c : Cand) : Manifest × SyncCounts :=
  let cnt1 := { cnt with found := cnt.found + 1 }
  match mlook data c.virt with
  | some r =>
    if !full && r.mtime == c.mtime && r.size == c.size then
      (dinsert data c.virt { r with checked := now, exist := true },
       { cnt1 with existed := cnt1.existed + 1 })
    else
      let file_hash := hex32 (mmh c.content)
      let cnt2 := if r.hash != file_hash
        then { cnt1 with changed := cnt1.changed + 1 }
        else { cnt1 with existed := cnt1.existed + 1 }
      (dinsert data c.virt
        { hash := file_hash, mtime := c.mtime, checked := now, hashed := now,
          exist := true, size := c.size }, cnt2)
  | none =>
    let file_hash := hex32 (mmh c.content)
    (dinsert data c.virt
      { hash := file_hash, mtime := c.mtime, checked := now, hashed := now,
        exist := true, size := c.size },
     { cnt1 with added := cnt1.added + 1 })

/-- processList runs the sync loop over a candidate list; `clock i` is the
`datetime.now().isoformat()` value observed at the i-th iteration. -/
def processList (mmh : List Nat → Nat) (full : Bool) (clock : Nat → String) :
    Nat → Manifest → SyncCounts → List Cand → Manifest × SyncCounts
  | _, data, cnt, [] => (data, cnt)
  | i, data, cnt, c :: rest =>
    let st := step mmh full (clock i) data cnt c
    processList mmh full clock (i + 1) st.1 st.2 rest

/-- stripExist embeds the KeyboardInterrupt handler of main.py lines 83-87:
delete the transient exist marker from every record. -/
def stripExist (m : Manifest) : Manifest :=
  m.map (fun e => (e.1, { e.2 with exist := false }))

/-- Result of a sync invocation: the manifest passed to save_fileset_data,
the reported counters, and whether the pass was aborted. -/
structure SyncResult where
  manifest : Manifest
  counts : SyncCounts
  aborted : Bool
deriving Repr

/-- sync embeds main.py lines 25-102 for a valid (murmur128) configuration.
`cs` is the resolver output, `interruptAfter = some k` plays the
KeyboardInterrupt arriving after `k` candidates were processed (observed
between items, per the loop structure): the handler strips every transient
exist flag and deletion detection is skipped.  With `none` the loop finishes:
records never marked exist are collected, counted and deleted, the flag is
stripped from the survivors (lines 89-98).  The `manifest` field of the
result is exactly what save_fileset_data persists at line 100. -/
def sync (mmh : List Nat → Nat) (full : Bool) (clock : Nat → String)
    (data0 : Manifest) (cs : List Cand) (interruptAfter : Option Nat) :
    SyncResult :=
  let sortedC := sortCandidates data0 cs
  match interruptAfter with
  | some k =>
    let st := processList mmh full clock 0 data0 initCounts (sortedC.take k)
    { manifest := stripExist st.1, counts := st.2, aborted := true }
  | none =>
    let st := processList mmh full clock 0 data0 initCounts sortedC
    let kept := (st.1.filter (fun e => e.2.exist)).map
      (fun e => (e.1, { e.2 with exist := false }))
    let del := (st.1.filter (fun e => !e.2.exist)).length
    { manifest := kept, counts := { st.2 with deleted := del }, aborted := false }

/-! ## Status reporter (main.py lines 113-148) -/

/-- Report assembled by status.  The `data` field carries the manifest as it
stands when status returns: the function reads it and never writes it back,
so the field always equals the loaded manifest. -/
structure StatusReport where
  total : Nat
  scanned : Nat
  deleted : Int
  added : Nat
  modified : Nat
  data : Manifest
deriving Repr

/-- statusModifiedPred is the per-item test of main.py lines 133-139: the
item counts as modified when its virtual path has a record whose stored
mtime or size differs from the freshly read filesystem values. -/
def statusModifiedPred (data : Manifest) (c : Cand) : Bool :=
  match mlook data c.virt with
  | some r => !(r.mtime == c.mtime) || !(r.size == c.size)
  | none => false

/-- status embeds main.py lines 113-148.  `scan` is the fresh enumeration in
walk order (one item per real file, so one virtual path can occur twice when
two real roots map onto it).  Per item: absent from the manifest counts
added, present with a differing stored mtime or size counts modified; the
scanned total is the cardinality of the set of virtual paths; deleted is
derived as `total - (scanned - added)` in Python integers. -/
def status (data : Manifest) (scan : List Cand) : StatusReport :=
  let all_files := (scan.map Cand.virt).dedup
  let added := (scan.filter (fun c => (mlook data c.virt).isNone)).length
  let modified := (scan.filter (statusModifiedPred data)).length
  { total := data.length
    scanned := all_files.length
    deleted := (data.length : Int) - ((all_files.length : Int) - (added : Int))
    added := added
    modified := modified
    data := data }

/-- addedSpecCount states the count the specification describes: the number
of distinct virtual paths present in the scan but absent from the manifest.
Written from the words of the spec, to be compared with `status`. -/
def addedSpecCount (data : Manifest) (scan : List Cand) : Nat :=
  (((scan.map Cand.virt).dedup).filter (fun p => (mlook data p).isNone)).length

/-- modifiedSpecCount states the count the specification describes: the
number of manifest entries for which some scan item of the same virtual path
reports a differing mtime or size.  Written from the words of the spec, to be
compared with `status`. -/
def modifiedSpecCount (data : Manifest) (scan : List Cand) : Nat :=
  (data.filter (fun e => scan.any (fun c =>
    e.1 == c.virt && (!(e.2.mtime == c.mtime) || !(e.2.size == c.size))))).length

/-! ## Differ (main.py lines 181-209) -/

/-- Result of diff: the two only-in sets and the set of common paths with
differing hashes.  Python builds these from dict key sets; iteration order of
the final report is not part of the contract, so they are Finsets. -/
structure DiffResult where
  only1 : Finset String
  only2 : Finset String
  different : Finset String

/-- Key set of a manifest (Python `set(d.keys())`). -/
def keysF (m : Manifest) : Finset String := (m.map Prod.fst).toFinset

/-- Stored hash at a path, when present. -/
def hashOf (m : Manifest) (p : String) : Option String :=
  (mlook m p).map FileRecord.hash

/-- diff embeds main.py lines 181-189: pure set arithmetic on the two loaded
manifests, no filesystem access. -/
def diff (d1 d2 : Manifest) : DiffResult :=
  { only1 := keysF d1 \ keysF d2
    only2 := keysF d2 \ keysF d1
    different := (keysF d1 ∩ keysF d2).filter (fun f => hashOf d1 f ≠ hashOf d2 f) }

/-! ## Verifier (check, main.py lines 151-178) -/

/-- Python startswith on strings. -/
def pyStartsWith (s pre : String) : Bool := List.isPrefixOf pre.data s.data

/-- Outcome check reports for one selected entry. -/
inductive CheckOutcome where
  | ok
  | changed
  | missing
deriving Repr, DecidableEq

/-- checkEntry embeds the body of the check loop (main.py lines 164-176) for
one selected manifest entry.  `paths` is the configured (real root, virtual
root) list in configuration order; the first virtual root that is a string
prefix of the virtual path wins; with no match `real_path` stays None, which
is falsy, so the entry is reported missing exactly like a resolved path that
does not exist.  `fsE` tells whether a real path exists, `fsH` is the
fingerprint hash_file computes for it (the configuration is murmur128), and
`jR` models the Path arithmetic `Path(rp) / Path(virt).relative_to(vp)`. -/
def checkEntry (fsE : String → Bool) (fsH : String → String)
    (jR : String → String → String → String) (paths : List (String × String))
    (e : String × FileRecord) : CheckOutcome :=
  match paths.find? (fun rv => pyStartsWith e.1 rv.2) with
  | none => CheckOutcome.missing
  | some rv =>
    let real := jR rv.1 rv.2 e.1
    if fsE real then
      if fsH real != e.2.hash then CheckOutcome.changed else CheckOutcome.ok
    else CheckOutcome.missing

/-- selectToCheck embeds main.py lines 158-159: manifest entries sorted by
the numeric value of the stored mtime (Python float(...), modelled by the
order-key parameter `mtimeVal`), truncated to the requested percentage. -/
def selectToCheck (mtimeVal : String → Int) (data : Manifest) (pct : Nat) :
    List (String × FileRecord) :=
  let sorted := data.mergeSort (fun a b =>
    decide (mtimeVal a.2.mtime ≤ mtimeVal b.2.mtime))
  sorted.take (data.length * pct / 100)

/-- runCheck processes every selected entry in order, producing one outcome
per entry; the loop never raises and never skips an entry. -/
def runCheck (fsE : String → Bool) (fsH : String → String)
    (jR : String → String → String → String) (paths : List (String × String))
    (selected : List (String × FileRecord)) : List CheckOutcome :=
  selected.map (checkEntry fsE fsH jR paths)

/-! ## Configuration loading (misc.py lines 9-25) -/

/-- Python default str.strip character class (ASCII whitespace as found in
configuration lines). -/
def pyWs (c : Char) : Bool :=
  c == ' ' || c == '\t' || c == '\n' || c == '\r' || c == '\x0b' || c == '\x0c'

/-- dropRightWhileL drops the longest suffix satisfying the predicate. -/
def dropRightWhileL (p : Char → Bool) (l : List Char) : List Char :=
  (l.reverse.dropWhile p).reverse

/-- pyStrip embeds Python str.strip(). -/
def pyStrip (s : String) : String :=
  String.mk (dropRightWhileL pyWs (s.data.dropWhile pyWs))

/-- pyStripQuotes embeds Python str.strip applied with the double-quote
character (misc.py line 22). -/
def pyStripQuotes (s : String) : String :=
  String.mk (dropRightWhileL (fun c => c == '\x22')
    (s.data.dropWhile (fun c => c == '\x22')))

/-- startsWithL is list-level string prefix testing. -/
def startsWithL (pre s : List Char) : Bool := List.isPrefixOf pre s

/-- splitOnAuxL: fuel-driven worker for splitOnL; the fuel is always at least
the length of the remaining input, and each step consumes input. -/
def splitOnAuxL (sep : List Char) : Nat → List Char → List Char → List (List Char)
  | _, [], acc => [acc.reverse]
  | 0, s, acc => [acc.reverse ++ s]
  | fuel + 1, c :: rest, acc =>
    if startsWithL sep (c :: rest) then
      acc.reverse :: splitOnAuxL sep fuel ((c :: rest).drop sep.length) []
    else
      splitOnAuxL sep fuel rest (c :: acc)

/-- splitOnL embeds Python str.split(sep) for a non-empty separator. -/
def splitOnL (sep s : List Char) : List (List Char) :=
  splitOnAuxL sep s.length s []

/-- pySplit embeds Python str.split(sep) on strings. -/
def pySplit (s sep : String) : List String :=
  (splitOnL sep.data s.data).map String.mk

/-- load_config embeds misc.py lines 9-25 on the list of configuration lines:
each line is stripped; a line starting with `algo=` replaces the algorithm
name with the second component of its split on `=`; otherwise a line
containing `=>` is split on `=>`, both sides stripped, quotes stripped from
the real path, and the pair stored in the insertion-ordered paths dict (a
later duplicate real path overwrites).  A mapping line whose split does not
have exactly two parts makes the Python tuple unpacking raise ValueError.
No validation of the algorithm name happens here. -/
def load_config (lines : List String) :
    Except String (String × List (String × String)) :=
  lines.foldlM (fun acc line0 =>
    let line := pyStrip line0
    if pyStartsWith line "algo=" then
      Except.ok (((pySplit line "=").getD 1 ""), acc.2)
    else if (pySplit line "=>").length ≥ 2 then
      match (pySplit line "=>").map pyStrip with
      | [rp, vp] => Except.ok (acc.1, dinsert acc.2 (pyStripQuotes rp) vp)
      | _ => Except.error "ValueError: too many values to unpack"
    else Except.ok acc) ("murmur128", [])

/-! ## Manifest store (misc.py lines 28-38) -/

/-- State of the persisted manifest file when load_fileset_data opens it:
absent, present but not decompressible/deserializable, or valid. -/
inductive StoredFile where
  | absent
  | corrupt (msg : String)
  | stored (m : Manifest)

/-- load_fileset_data embeds misc.py lines 33-38: the try block re-raises
everything except FileNotFoundError, which alone is caught and turned into
the empty manifest; an LZMA or JSON decoding failure on a present file
propagates as the error it is. -/
def load_fileset_data : StoredFile → Except String Manifest
  | StoredFile.absent => Except.ok []
  | StoredFile.corrupt msg => Except.error msg
  | StoredFile.stored m => Except.ok m

/-! ## Timestamps produced by the program

Modelled from the spec: `checked` and `hashed` are ISO-8601 timestamps,
produced in the source by `datetime.now().isoformat()` of the external
datetime library, with a four-digit year no earlier than the run date;
datetime years range up to 9999. -/

/-- digit rendering of the decimal places of a number (zero-padded fields of
the ISO format). -/
def pad4 (y : Nat) : List Char :=
  [Nat.digitChar (y / 1000 % 10), Nat.digitChar (y / 100 % 10),
   Nat.digitChar (y / 10 % 10), Nat.digitChar (y % 10)]

/-- two-digit zero-padded field of the ISO format. -/
def pad2 (n : Nat) : List Char := [Nat.digitChar (n / 10 % 10), Nat.digitChar (n % 10)]

/-- six-digit zero-padded microsecond field of the ISO format. -/
def pad6 (n : Nat) : List Char :=
  [Nat.digitChar (n / 100000 % 10), Nat.digitChar (n / 10000 % 10),
   Nat.digitChar (n / 1000 % 10), Nat.digitChar (n / 100 % 10),
   Nat.digitChar (n / 10 % 10), Nat.digitChar (n % 10)]

/-- isoTimestamp, modelled from the spec: the
`YYYY-MM-DDTHH:MM:SS.ffffff` string datetime.now().isoformat() yields. -/
def isoTimestamp (y mo d hh mi ss us : Nat) : String :=
  String.mk (pad4 y ++ '-' :: pad2 mo ++ '-' :: pad2 d ++ 'T' :: pad2 hh
    ++ ':' :: pad2 mi ++ ':' :: pad2 ss ++ '.' :: pad6 us)

/-! ## Invariant vocabulary and concrete fixtures -/

/-- Record written by the hashing branch of the sync loop (main.py 72-79). -/
def newRec (mmh : List Nat → Nat) (now : String) (c : Cand) : FileRecord :=
  { hash := hex32 (mmh c.content), mtime := c.mtime, checked := now,
    hashed := now, exist := true, size := c.size }

/-- TouchedBy lists the ways one pass of the sync loop can have transformed a
record that was already present: left alone, fast-confirmed (checked stamped,
transient flag raised, hash and hashed untouched), or rewritten by the
hashing branch for some candidate of the same virtual path (possibly with a
later fast-confirm restamping checked). -/
def TouchedBy (mmh : List Nat → Nat) (Q : Cand → Prop) (p : String)
    (r0 r : FileRecord) : Prop :=
  r = r0
  ∨ (∃ n, r = { r0 with checked := n, exist := true })
  ∨ (∃ n n2 c, Q c ∧ c.virt = p ∧
      r = { hash := hex32 (mmh c.content), mtime := c.mtime, checked := n2,
            hashed := n, exist := true, size := c.size })

def setExistFalse (r : FileRecord) : FileRecord := { r with exist := false }

/-- Concrete example fingerprint function (any function serves, since the
murmur implementation is external). -/
def mmh0 : List Nat → Nat := fun _ => 0

def clock0 : Nat → String := fun _ => "2026-01-01T00:00:00.000000"

def recW : FileRecord :=
  { hash := "aa", mtime := "1.000000", checked := "2025-06-01T00:00:00",
    hashed := "2025-06-01T00:00:00", exist := false, size := 5 }

def dataW : Manifest := [("v/a", recW)]

def candA : Cand := { virt := "v/a", mtime := "1.000000", size := 5, content := [] }

def candB : Cand := { virt := "v/b", mtime := "2.000000", size := 3, content := [1] }

/-! ## Dictionary lemmas -/

theorem mlook_nil (p : String) : mlook [] p = none := rfl

theorem mlook_cons (e : String × FileRecord) (m : Manifest) (p : String) :
    mlook (e :: m) p = if e.1 = p then some e.2 else mlook m p := by
  cases e with
  | mk k v =>
    simp only [mlook, List.lookup]
    rcases eq_or_ne k p with h | h
    · subst h
      simp
    · have hb : (p == k) = false := by simpa using Ne.symm h
      simp [h, hb]

theorem mlook_dinsert_self (m : Manifest) (k : String) (v : FileRecord) :
    mlook (dinsert m k v) k = some v := by
  induction m with
  | nil =>
    rw [dinsert, mlook_cons]
    simp
  | cons e rest ih =>
    by_cases h : e.1 = k
    · rw [dinsert, if_pos h, mlook_cons]
      simp
    · rw [dinsert, if_neg h, mlook_cons, if_neg h]
      exact ih

theorem mlook_dinsert_ne (m : Manifest) (k p : String) (v : FileRecord)
    (h : p ≠ k) : mlook (dinsert m k v) p = mlook m p := by
  induction m with
  | nil =>
    rw [dinsert, mlook_cons, if_neg (fun hc => h hc.symm)]
  | cons e rest ih =>
    by_cases he : e.1 = k
    · rw [dinsert, if_pos he, mlook_cons, mlook_cons]
      have : ¬ (k = p) := fun hc => h hc.symm
      rw [if_neg this, if_neg (he ▸ this)]
    · rw [dinsert, if_neg he, mlook_cons, mlook_cons]
      by_cases hep : e.1 = p
      · rw [if_pos hep, if_pos hep]
      · rw [if_neg hep, if_neg hep]
        exact ih

theorem mlook_mem {m : Manifest} {p : String} {r : FileRecord}
    (h : mlook m p = some r) : (p, r) ∈ m := by
  induction m with
  | nil => simp [mlook_nil] at h
  | cons e rest ih =>
    rw [mlook_cons] at h
    by_cases he : e.1 = p
    · rw [if_pos he] at h
      injection h with h2
      subst h2
      cases e with
      | mk k v =>
        cases he
        exact List.mem_cons_self _ _
    · rw [if_neg he] at h
      exact List.mem_cons_of_mem _ (ih h)

theorem nodup_mlook {m : Manifest} {p : String} {r : FileRecord}
    (hnd : (m.map Prod.fst).Nodup) (h : (p, r) ∈ m) : mlook m p = some r := by
  induction m with
  | nil => simp at h
  | cons e rest ih =>
    simp only [List.map_cons, List.nodup_cons] at hnd
    rcases List.mem_cons.mp h with h1 | h1
    · subst h1
      simp [mlook_cons]
    · have hne : e.1 ≠ p := by
        intro hc
        exact hnd.1 (hc ▸ (List.mem_map.mpr ⟨(p, r), h1, rfl⟩))
      rw [mlook_cons, if_neg hne]
      exact ih hnd.2 h1

theorem keys_dinsert (m : Manifest) (k : String) (v : FileRecord) :
    (dinsert m k v).map Prod.fst =
      if k ∈ m.map Prod.fst then m.map Prod.fst else m.map Prod.fst ++ [k] := by
  induction m with
  | nil => simp [dinsert]
  | cons e rest ih =>
    by_cases h2 : e.1 = k
    · subst h2
      simp [dinsert]
    · rw [dinsert, if_neg h2]
      simp only [List.map_cons, ih]
      by_cases hmem : k ∈ rest.map Prod.fst
      · simp [hmem, Ne.symm h2]
      · simp [hmem, Ne.symm h2]

theorem keys_dinsert_nodup {m : Manifest} {k : String} {v : FileRecord}
    (hnd : (m.map Prod.fst).Nodup) :
    ((dinsert m k v).map Prod.fst).Nodup := by
  rw [keys_dinsert]
  by_cases hmem : k ∈ m.map Prod.fst
  · simpa [hmem] using hnd
  · rw [if_neg hmem]
    simp [List.nodup_append, hnd, hmem]

theorem filter_dinsert (m : Manifest) (k : String) (v : FileRecord)
    (P : String → Bool) (hP : P k = false) :
    (dinsert m k v).filter (fun e => P e.1) = m.filter (fun e => P e.1) := by
  induction m with
  | nil => simp [dinsert, List.filter_cons, hP]
  | cons e rest ih =>
    by_cases he : e.1 = k
    · rw [dinsert, if_pos he, List.filter_cons, List.filter_cons]
      simp [he, hP]
    · rw [dinsert, if_neg he, List.filter_cons, List.filter_cons]
      cases h2 : P e.1 <;> simp [h2, ih]

theorem mlook_isSome_iff (m : Manifest) (p : String) :
    (mlook m p).isSome = true ↔ p ∈ m.map Prod.fst := by
  induction m with
  | nil => simp [mlook_nil]
  | cons e rest ih =>
    rw [mlook_cons]
    by_cases he : e.1 = p
    · simp [he]
    · simp [he, ih, Ne.symm he]

theorem mlook_stripExist (m : Manifest) (p : String) :
    mlook (stripExist m) p = (mlook m p).map (fun r => { r with exist := false }) := by
  induction m with
  | nil => simp [stripExist, mlook_nil]
  | cons e rest ih =>
    simp only [stripExist, List.map_cons] at ih ⊢
    rw [mlook_cons, mlook_cons]
    by_cases he : e.1 = p
    · simp [he]
    · simp [he, ih]

/-! ## Step and loop lemmas -/

theorem step_shape (mmh : List Nat → Nat) (full : Bool) (now : String)
    (data : Manifest) (cnt : SyncCounts) (c : Cand) :
    (∃ r, mlook data c.virt = some r ∧
        (!full && r.mtime == c.mtime && r.size == c.size) = true ∧
        step mmh full now data cnt c =
          (dinsert data c.virt { r with checked := now, exist := true },
           { cnt with found := cnt.found + 1, existed := cnt.existed + 1 })) ∨
    (∃ r, mlook data c.virt = some r ∧
        (!full && r.mtime == c.mtime && r.size == c.size) = false ∧
        step mmh full now data cnt c =
          (dinsert data c.virt (newRec mmh now c),
           if r.hash != hex32 (mmh c.content)
           then { cnt with found := cnt.found + 1, changed := cnt.changed + 1 }
           else { cnt with found := cnt.found + 1, existed := cnt.existed + 1 })) ∨
    (mlook data c.virt = none ∧
        step mmh full now data cnt c =
          (dinsert data c.virt (newRec mmh now c),
           { cnt with found := cnt.found + 1, added := cnt.added + 1 })) := by
  rcases h : mlook data c.virt with _ | r
  · right; right
    refine ⟨rfl, ?_⟩
    unfold step
    rw [h]
    rfl
  · rcases hg : !full && r.mtime == c.mtime && r.size == c.size with _ | _
    · right; left
      refine ⟨r, rfl, hg, ?_⟩
      unfold step
      rw [h]
      dsimp only
      rw [hg]
      rfl
    · left
      refine ⟨r, rfl, hg, ?_⟩
      unfold step
      rw [h]
      dsimp only
      rw [hg]
      rfl

theorem step_lookup_self (mmh : List Nat → Nat) (full : Bool) (now : String)
    (data : Manifest) (cnt : SyncCounts) (c : Cand) :
    ∃ r, mlook (step mmh full now data cnt c).1 c.virt = some r ∧ r.exist = true := by
  rcases step_shape mmh full now data cnt c with ⟨r, _, _, he⟩ | ⟨r, _, _, he⟩ | ⟨_, he⟩ <;>
    rw [he] <;> exact ⟨_, mlook_dinsert_self _ _ _, rfl⟩

theorem step_lookup_ne (mmh : List Nat → Nat) (full : Bool) (now : String)
    (data : Manifest) (cnt : SyncCounts) (c : Cand) (p : String)
    (hp : p ≠ c.virt) :
    mlook (step mmh full now data cnt c).1 p = mlook data p := by
  rcases step_shape mmh full now data cnt c with ⟨r, _, _, he⟩ | ⟨r, _, _, he⟩ | ⟨_, he⟩ <;>
    rw [he] <;> exact mlook_dinsert_ne _ _ _ _ hp

theorem step_deleted (mmh : List Nat → Nat) (full : Bool) (now : String)
    (data : Manifest) (cnt : SyncCounts) (c : Cand) :
    (step mmh full now data cnt c).2.deleted = cnt.deleted := by
  rcases step_shape mmh full now data cnt c with ⟨r, _, _, he⟩ | ⟨r, _, _, he⟩ | ⟨_, he⟩
  · rw [he]
  · rw [he]
    dsimp only
    split <;> rfl
  · rw [he]

theorem step_nodup (mmh : List Nat → Nat) (full : Bool) (now : String)
    (data : Manifest) (cnt : SyncCounts) (c : Cand)
    (hnd : (data.map Prod.fst).Nodup) :
    (((step mmh full now data cnt c).1).map Prod.fst).Nodup := by
  rcases step_shape mmh full now data cnt c with ⟨r, _, _, he⟩ | ⟨r, _, _, he⟩ | ⟨_, he⟩ <;>
    rw [he] <;> exact keys_dinsert_nodup hnd

theorem step_filter (mmh : List Nat → Nat) (full : Bool) (now : String)
    (data : Manifest) (cnt : SyncCounts) (c : Cand) (P : String → Bool)
    (hP : P c.virt = false) :
    ((step mmh full now data cnt c).1).filter (fun e => P e.1)
      = data.filter (fun e => P e.1) := by
  rcases step_shape mmh full now data cnt c with ⟨r, _, _, he⟩ | ⟨r, _, _, he⟩ | ⟨_, he⟩ <;>
    rw [he] <;> exact filter_dinsert _ _ _ _ hP

theorem touchedBy_trans {mmh : List Nat → Nat} {Q : Cand → Prop} {p : String}
    {r0 r1 r2 : FileRecord} (h1 : TouchedBy mmh Q p r0 r1)
    (h2 : TouchedBy mmh Q p r1 r2) : TouchedBy mmh Q p r0 r2 := by
  rcases h2 with h2 | ⟨n, h2⟩ | ⟨n, n2, c, hQ, hc, h2⟩
  · subst h2
    exact h1
  · subst h2
    rcases h1 with h1 | ⟨n1, h1⟩ | ⟨n1, n3, c, hQ, hc, h1⟩
    · subst h1
      exact Or.inr (Or.inl ⟨n, rfl⟩)
    · subst h1
      exact Or.inr (Or.inl ⟨n, rfl⟩)
    · subst h1
      exact Or.inr (Or.inr ⟨n1, n, c, hQ, hc, rfl⟩)
  · exact Or.inr (Or.inr ⟨n, n2, c, hQ, hc, h2⟩)

theorem step_touched (mmh : List Nat → Nat) (full : Bool) (now : String)
    (data : Manifest) (cnt : SyncCounts) (c : Cand) (Q : Cand → Prop)
    (hQ : Q c) {p : String} {r0 : FileRecord} (h : mlook data p = some r0) :
    ∃ r, mlook (step mmh full now data cnt c).1 p = some r ∧
      TouchedBy mmh Q p r0 r := by
  by_cases hp : p = c.virt
  · subst hp
    rcases step_shape mmh full now data cnt c with
      ⟨r, hr, _, he⟩ | ⟨r, hr, _, he⟩ | ⟨hr, he⟩
    · rw [he]
      rw [h] at hr
      injection hr with hr
      subst hr
      exact ⟨_, mlook_dinsert_self _ _ _, Or.inr (Or.inl ⟨now, rfl⟩)⟩
    · rw [he]
      exact ⟨_, mlook_dinsert_self _ _ _,
        Or.inr (Or.inr ⟨now, now, c, hQ, rfl, rfl⟩)⟩
    · rw [h] at hr
      cases hr
  · rw [step_lookup_ne mmh full now data cnt c p hp]
    exact ⟨r0, h, Or.inl rfl⟩

theorem processList_deleted (mmh : List Nat → Nat) (full : Bool)
    (clock : Nat → String) :
    ∀ (L : List Cand) (i : Nat) (data : Manifest) (cnt : SyncCounts),
      (processList mmh full clock i data cnt L).2.deleted = cnt.deleted := by
  intro L
  induction L with
  | nil => intro i data cnt; rfl
  | cons c rest ih =>
    intro i data cnt
    rw [processList, ih]
    exact step_deleted mmh full (clock i) data cnt c

theorem processList_lookup_ne (mmh : List Nat → Nat) (full : Bool)
    (clock : Nat → String) :
    ∀ (L : List Cand) (i : Nat) (data : Manifest) (cnt : SyncCounts)
      (p : String), p ∉ L.map Cand.virt →
      mlook (processList mmh full clock i data cnt L).1 p = mlook data p := by
  intro L
  induction L with
  | nil => intro i data cnt p _; rfl
  | cons c rest ih =>
    intro i data cnt p hp
    simp only [List.map_cons, List.mem_cons, not_or] at hp
    rw [processList, ih _ _ _ _ hp.2]
    exact step_lookup_ne mmh full (clock i) data cnt c p hp.1

theorem processList_marks (mmh : List Nat → Nat) (full : Bool)
    (clock : Nat → String) :
    ∀ (L : List Cand) (i : Nat) (data : Manifest) (cnt : SyncCounts)
      (p : String), p ∈ L.map Cand.virt →
      ∃ r, mlook (processList mmh full clock i data cnt L).1 p = some r ∧
        r.exist = true := by
  intro L
  induction L with
  | nil => intro i data cnt p hp; simp at hp
  | cons c rest ih =>
    intro i data cnt p hp
    by_cases hr : p ∈ rest.map Cand.virt
    · rw [processList]
      exact ih _ _ _ _ hr
    · have hpc : p = c.virt := by
        simp only [List.map_cons, List.mem_cons] at hp
        tauto
      subst hpc
      rw [processList]
      rw [processList_lookup_ne mmh full clock rest _ _ _ _ hr]
      exact step_lookup_self mmh full (clock i) data cnt c

theorem processList_touched (mmh : List Nat → Nat) (full : Bool)
    (clock : Nat → String) (Q : Cand → Prop) :
    ∀ (L : List Cand), (∀ c ∈ L, Q c) →
      ∀ (i : Nat) (data : Manifest) (cnt : SyncCounts) (p : String)
        (r0 : FileRecord), mlook data p = some r0 →
      ∃ r, mlook (processList mmh full clock i data cnt L).1 p = some r ∧
        TouchedBy mmh Q p r0 r := by
  intro L
  induction L with
  | nil => intro _ i data cnt p r0 h; exact ⟨r0, h, Or.inl rfl⟩
  | cons c rest ih =>
    intro hQ i data cnt p r0 h
    obtain ⟨r1, h1, t1⟩ :=
      step_touched mmh full (clock i) data cnt c Q (hQ c (by simp)) h
    obtain ⟨r, h2, t2⟩ :=
      ih (fun c' hc' => hQ c' (List.mem_cons_of_mem _ hc')) (i + 1) _ _ p r1 h1
    exact ⟨r, by rw [processList]; exact h2, touchedBy_trans t1 t2⟩

theorem processList_nodup (mmh : List Nat → Nat) (full : Bool)
    (clock : Nat → String) :
    ∀ (L : List Cand) (i : Nat) (data : Manifest) (cnt : SyncCounts),
      (data.map Prod.fst).Nodup →
      (((processList mmh full clock i data cnt L).1).map Prod.fst).Nodup := by
  intro L
  induction L with
  | nil => intro i data cnt h; exact h
  | cons c rest ih =>
    intro i data cnt h
    rw [processList]
    exact ih _ _ _ (step_nodup mmh full (clock i) data cnt c h)

theorem processList_filter (mmh : List Nat → Nat) (full : Bool)
    (clock : Nat → String) (P : String → Bool) :
    ∀ (L : List Cand), (∀ c ∈ L, P c.virt = false) →
      ∀ (i : Nat) (data : Manifest) (cnt : SyncCounts),
      ((processList mmh full clock i data cnt L).1).filter (fun e => P e.1)
        = data.filter (fun e => P e.1) := by
  intro L
  induction L with
  | nil => intro _ i data cnt; rfl
  | cons c rest ih =>
    intro hP i data cnt
    rw [processList, ih (fun c' hc' => hP c' (List.mem_cons_of_mem _ hc'))]
    exact step_filter mmh full (clock i) data cnt c P (hP c (by simp))

/-! ## Record helpers and sync unfoldings -/

theorem setExistFalse_id {r : FileRecord} (h : r.exist = false) :
    setExistFalse r = r := by
  cases r with
  | mk a b c d e f =>
    simp only [setExistFalse]
    simp only at h
    subst h
    rfl

theorem setExistFalse_checked {r : FileRecord} (h : r.exist = false) (n : String) :
    ({ r with checked := n, exist := false } : FileRecord) = { r with checked := n } := by
  cases r with
  | mk a b c d e f =>
    simp only at h
    subst h
    rfl

theorem stripExist_lookup {m : Manifest} {p : String} {r : FileRecord}
    (h : mlook (stripExist m) p = some r) : r.exist = false := by
  rw [mlook_stripExist] at h
  rcases hm : mlook m p with _ | r0 <;> rw [hm] at h
  · cases h
  · injection h with h
    subst h
    rfl

theorem sync_some_eq (mmh : List Nat → Nat) (full : Bool) (clock : Nat → String)
    (data0 : Manifest) (cs : List Cand) (k : Nat) :
    sync mmh full clock data0 cs (some k) =
      { manifest := stripExist (processList mmh full clock 0 data0 initCounts
          ((sortCandidates data0 cs).take k)).1
        counts := (processList mmh full clock 0 data0 initCounts
          ((sortCandidates data0 cs).take k)).2
        aborted := true } := rfl

theorem sync_none_eq (mmh : List Nat → Nat) (full : Bool) (clock : Nat → String)
    (data0 : Manifest) (cs : List Cand) :
    sync mmh full clock data0 cs none =
      { manifest := ((processList mmh full clock 0 data0 initCounts
            (sortCandidates data0 cs)).1.filter (fun e => e.2.exist)).map
              (fun e => (e.1, { e.2 with exist := false }))
        counts := { (processList mmh full clock 0 data0 initCounts
            (sortCandidates data0 cs)).2 with
          deleted := ((processList mmh full clock 0 data0 initCounts
            (sortCandidates data0 cs)).1.filter (fun e => !e.2.exist)).length }
        aborted := false } := rfl

/-! ## Claim C1 -/

/-- C1: if sync is interrupted after processing a strict non-empty prefix of
the candidate list, then the persisted manifest carries no transient exist
flag on any record, the deleted counter is zero (no deletion detection ran),
and every record of the loaded manifest is still present, either untouched,
or fast-confirmed (only its checked stamp moved), or rewritten from a scanned
candidate of its own virtual path. -/
theorem sync_interrupted_safe (mmh : List Nat → Nat) (full : Bool)
    (clock : Nat → String) (data0 : Manifest) (cs : List Cand) (k : Nat)
    (hclean : ∀ e ∈ data0, e.2.exist = false)
    (hk1 : 0 < k) (hk2 : k < (sortCandidates data0 cs).length) :
    (∀ p r, mlook (sync mmh full clock data0 cs (some k)).manifest p = some r →
        r.exist = false)
    ∧ (sync mmh full clock data0 cs (some k)).counts.deleted = 0
    ∧ (∀ p r0, mlook data0 p = some r0 →
        ∃ r, mlook (sync mmh full clock data0 cs (some k)).manifest p = some r ∧
          (r = r0
           ∨ (∃ n, r = { r0 with checked := n })
           ∨ (∃ n n2 c, c ∈ cs ∧ c.virt = p ∧
               r = { hash := hex32 (mmh c.content), mtime := c.mtime,
                     checked := n2, hashed := n, exist := false,
                     size := c.size }))) := by
  rw [sync_some_eq]
  refine ⟨?_, ?_, ?_⟩
  · intro p r h
    exact stripExist_lookup h
  · exact processList_deleted mmh full clock _ _ _ _
  · intro p r0 h0
    have hQ : ∀ c ∈ (sortCandidates data0 cs).take k, c ∈ cs := by
      intro c hc
      have hs : c ∈ sortCandidates data0 cs := List.take_subset _ _ hc
      exact (List.mergeSort_perm cs (candLe data0)).mem_iff.mp hs
    obtain ⟨r, hr, ht⟩ := processList_touched mmh full clock (fun c => c ∈ cs)
      ((sortCandidates data0 cs).take k) hQ 0 data0 initCounts p r0 h0
    have hr0 : r0.exist = false := hclean (p, r0) (mlook_mem h0)
    refine ⟨{ r with exist := false }, ?_, ?_⟩
    · rw [mlook_stripExist, hr]
      rfl
    · rcases ht with ht | ⟨n, ht⟩ | ⟨n, n2, c, hc, hcp, ht⟩
      · subst ht
        exact Or.inl (setExistFalse_id hr0)
      · subst ht
        refine Or.inr (Or.inl ⟨n, ?_⟩)
        exact setExistFalse_checked hr0 n
      · subst ht
        exact Or.inr (Or.inr ⟨n, n2, c, hc, hcp, rfl⟩)

theorem sync_interrupted_safe_witness :
    (sync mmh0 false clock0 dataW [candA, candB] (some 1)).counts.deleted = 0 :=
  (sync_interrupted_safe mmh0 false clock0 dataW [candA, candB] 1
    (by decide) (by decide)
    (by rw [sortCandidates, (List.mergeSort_perm _ _).length_eq]; decide)).2.1

/-! ## Claim C3 -/

theorem contains_iff_mem (l : List String) (a : String) :
    l.contains a = true ↔ a ∈ l := by
  induction l with
  | nil => simp
  | cons x xs ih => simp [List.contains] at ih ⊢

/-- C3: when sync processes the whole candidate list without interruption,
every manifest record never marked with the transient exist flag during the
pass is removed and counted in the deleted counter, the flag is stripped from
the remaining records, and the persisted result therefore carries no exist
flag and only virtual paths present in the scan. -/
theorem sync_completed_deletes (mmh : List Nat → Nat) (full : Bool)
    (clock : Nat → String) (data0 : Manifest) (cs : List Cand)
    (hclean : ∀ e ∈ data0, e.2.exist = false)
    (hnd : (data0.map Prod.fst).Nodup) :
    (∀ p r, mlook (sync mmh full clock data0 cs none).manifest p = some r →
        r.exist = false)
    ∧ (∀ p r, mlook (sync mmh full clock data0 cs none).manifest p = some r →
        p ∈ cs.map Cand.virt)
    ∧ (sync mmh full clock data0 cs none).counts.deleted =
        (data0.filter (fun e => !((cs.map Cand.virt).contains e.1))).length := by
  have hmemL : ∀ q : String,
      q ∈ (sortCandidates data0 cs).map Cand.virt ↔ q ∈ cs.map Cand.virt := by
    intro q
    exact ((List.mergeSort_perm cs (candLe data0)).map Cand.virt).mem_iff
  have hstnd := processList_nodup mmh full clock (sortCandidates data0 cs)
    0 data0 initCounts hnd
  have hPfalse : ∀ c ∈ sortCandidates data0 cs,
      (fun q => !((cs.map Cand.virt).contains q)) c.virt = false := by
    intro c hc
    have hv : c.virt ∈ cs.map Cand.virt :=
      (hmemL c.virt).mp (List.mem_map.mpr ⟨c, hc, rfl⟩)
    show (!((cs.map Cand.virt).contains c.virt)) = false
    rw [(contains_iff_mem _ _).mpr hv]
    decide
  have hfilter := processList_filter mmh full clock
    (fun q => !((cs.map Cand.virt).contains q)) (sortCandidates data0 cs)
    hPfalse 0 data0 initCounts
  rw [sync_none_eq]
  refine ⟨?_, ?_, ?_⟩
  · intro p r h
    obtain ⟨e, _, he2⟩ := List.mem_map.mp (mlook_mem h)
    have : r = { e.2 with exist := false } := by
      have := (Prod.mk.injEq _ _ _ _).mp he2
      exact this.2.symm
    rw [this]
  · intro p r h
    obtain ⟨e, he1, he2⟩ := List.mem_map.mp (mlook_mem h)
    obtain ⟨hest, hex⟩ := List.mem_filter.mp he1
    have hep : e.1 = p := ((Prod.mk.injEq _ _ _ _).mp he2).1
    by_contra hnp
    have hP : (fun q => !((cs.map Cand.virt).contains q)) e.1 = true := by
      rw [hep]
      simp only [Bool.not_eq_true']
      rcases hcont : (cs.map Cand.virt).contains p with _ | _
      · rfl
      · exact absurd ((contains_iff_mem _ _).mp hcont) hnp
    have hmem0 : e ∈ data0.filter (fun e => !((cs.map Cand.virt).contains e.1)) := by
      rw [← hfilter]
      exact List.mem_filter.mpr ⟨hest, hP⟩
    have := hclean e (List.mem_filter.mp hmem0).1
    rw [this] at hex
    cases hex
  · have hcongr : (processList mmh full clock 0 data0 initCounts
        (sortCandidates data0 cs)).1.filter (fun e => !e.2.exist)
        = (processList mmh full clock 0 data0 initCounts
        (sortCandidates data0 cs)).1.filter
          (fun e => !((cs.map Cand.virt).contains e.1)) := by
      apply List.filter_congr
      intro e he
      by_cases hcp : e.1 ∈ cs.map Cand.virt
      · obtain ⟨r', hr', hex'⟩ := processList_marks mmh full clock
          (sortCandidates data0 cs) 0 data0 initCounts e.1 ((hmemL e.1).mpr hcp)
        have hle : mlook (processList mmh full clock 0 data0 initCounts
            (sortCandidates data0 cs)).1 e.1 = some e.2 := nodup_mlook hstnd he
        rw [hle] at hr'
        injection hr' with hr'
        rw [← hr'] at hex'
        show (!e.2.exist) = (!((cs.map Cand.virt).contains e.1))
        rw [hex', (contains_iff_mem _ _).mpr hcp]
      · have hP : (!((cs.map Cand.virt).contains e.1)) = true := by
          simp only [Bool.not_eq_true']
          rcases hcont : (cs.map Cand.virt).contains e.1 with _ | _
          · rfl
          · exact absurd ((contains_iff_mem _ _).mp hcont) hcp
        have hmem0 : e ∈ data0.filter
            (fun e => !((cs.map Cand.virt).contains e.1)) := by
          rw [← hfilter]
          exact List.mem_filter.mpr ⟨he, hP⟩
        have hex0 := hclean e (List.mem_filter.mp hmem0).1
        show (!e.2.exist) = (!((cs.map Cand.virt).contains e.1))
        rw [hex0, hP]
        decide
    show ((processList mmh full clock 0 data0 initCounts
        (sortCandidates data0 cs)).1.filter (fun e => !e.2.exist)).length = _
    rw [hcongr, hfilter]

theorem sync_completed_deletes_witness :
    (sync mmh0 false clock0 dataW [candB] none).counts.deleted =
      (dataW.filter (fun e => !(([candB].map Cand.virt).contains e.1))).length :=
  (sync_completed_deletes mmh0 false clock0 dataW [candB]
    (by decide) (by decide)).2.2

/-! ## Claims C2 and C5 -/

theorem guard_true_iff {full : Bool} {r : FileRecord} {c : Cand} :
    (!full && r.mtime == c.mtime && r.size == c.size) = true ↔
      (full = false ∧ r.mtime = c.mtime ∧ r.size = c.size) := by
  simp [Bool.and_eq_true, Bool.not_eq_true', and_assoc]

theorem guard_false_of_cond {full : Bool} {r : FileRecord} {c : Cand}
    (hcond : full = true ∨ r.mtime ≠ c.mtime ∨ r.size ≠ c.size) :
    (!full && r.mtime == c.mtime && r.size == c.size) = false := by
  rcases hcond with h | h | h
  · simp [h]
  · simp [h]
  · simp [h]

/-- C2: a candidate is fast-confirmed, leaving hash and hashed untouched and
stamping checked and the transient exist flag, exactly when a record exists
for its virtual path, fast mode is on, and both the stored mtime and size
equal the scanned values; with a record but full mode or a mtime or size
difference the record is rewritten with a freshly computed hash; with no
record the hash is also computed. -/
theorem sync_fast_confirm_iff (mmh : List Nat → Nat) (full : Bool)
    (now : String) (data : Manifest) (cnt : SyncCounts) (c : Cand) :
    (∀ r, mlook data c.virt = some r →
      ((full = false ∧ r.mtime = c.mtime ∧ r.size = c.size) →
        (step mmh full now data cnt c).1 =
          dinsert data c.virt { r with checked := now, exist := true })
      ∧ ((full = true ∨ r.mtime ≠ c.mtime ∨ r.size ≠ c.size) →
        (step mmh full now data cnt c).1 =
          dinsert data c.virt
            { hash := hex32 (mmh c.content), mtime := c.mtime, checked := now,
              hashed := now, exist := true, size := c.size }))
    ∧ (mlook data c.virt = none →
        (step mmh full now data cnt c).1 =
          dinsert data c.virt
            { hash := hex32 (mmh c.content), mtime := c.mtime, checked := now,
              hashed := now, exist := true, size := c.size }) := by
  rcases step_shape mmh full now data cnt c with
    ⟨r1, hr1, hg1, he1⟩ | ⟨r1, hr1, hg1, he1⟩ | ⟨hr1, he1⟩
  · constructor
    · intro r hr
      rw [hr1] at hr
      injection hr with hr
      subst hr
      constructor
      · intro _
        rw [he1]
      · intro hcond
        rw [guard_false_of_cond hcond] at hg1
        cases hg1
    · intro hn
      rw [hr1] at hn
      cases hn
  · constructor
    · intro r hr
      rw [hr1] at hr
      injection hr with hr
      subst hr
      constructor
      · intro hcond
        have hgt := guard_true_iff.mpr hcond
        rw [hg1] at hgt
        cases hgt
      · intro _
        rw [he1]
        rfl
    · intro hn
      rw [hr1] at hn
      cases hn
  · constructor
    · intro r hr
      rw [hr1] at hr
      cases hr
    · intro _
      rw [he1]
      rfl

theorem sync_fast_confirm_iff_witness :
    (step mmh0 false "2026-02-02T00:00:00" dataW initCounts candA).1 =
      dinsert dataW candA.virt
        { recW with checked := "2026-02-02T00:00:00", exist := true } :=
  (((sync_fast_confirm_iff mmh0 false "2026-02-02T00:00:00" dataW initCounts
    candA).1 recW (by decide)).1) ⟨rfl, by decide, by decide⟩

/-- C5: when the hashing branch runs, a candidate with no record counts as
added, one whose stored hash differs from the fresh hash counts as changed,
one whose hash matches counts as existed, and in all three cases the record
is overwritten with the fresh hash, the scanned mtime and size, both
timestamps set to now, and the transient exist flag raised. -/
theorem sync_hash_classification (mmh : List Nat → Nat) (full : Bool)
    (now : String) (data : Manifest) (cnt : SyncCounts) (c : Cand) :
    (mlook data c.virt = none →
      (step mmh full now data cnt c).1 =
        dinsert data c.virt
          { hash := hex32 (mmh c.content), mtime := c.mtime, checked := now,
            hashed := now, exist := true, size := c.size } ∧
      (step mmh full now data cnt c).2 =
        { cnt with found := cnt.found + 1, added := cnt.added + 1 })
    ∧ (∀ r, mlook data c.virt = some r →
        (full = true ∨ r.mtime ≠ c.mtime ∨ r.size ≠ c.size) →
        (step mmh full now data cnt c).1 =
          dinsert data c.virt
            { hash := hex32 (mmh c.content), mtime := c.mtime, checked := now,
              hashed := now, exist := true, size := c.size }
        ∧ (r.hash ≠ hex32 (mmh c.content) →
            (step mmh full now data cnt c).2 =
              { cnt with found := cnt.found + 1, changed := cnt.changed + 1 })
        ∧ (r.hash = hex32 (mmh c.content) →
            (step mmh full now data cnt c).2 =
              { cnt with found := cnt.found + 1, existed := cnt.existed + 1 })) := by
  rcases step_shape mmh full now data cnt c with
    ⟨r1, hr1, hg1, he1⟩ | ⟨r1, hr1, hg1, he1⟩ | ⟨hr1, he1⟩
  · constructor
    · intro hn
      rw [hr1] at hn
      cases hn
    · intro r hr hcond
      rw [hr1] at hr
      injection hr with hr
      subst hr
      rw [guard_false_of_cond hcond] at hg1
      cases hg1
  · constructor
    · intro hn
      rw [hr1] at hn
      cases hn
    · intro r hr hcond
      rw [hr1] at hr
      injection hr with hr
      subst hr
      refine ⟨by rw [he1]; rfl, ?_, ?_⟩
      · intro hne
        rw [he1]
        have hb : (r1.hash != hex32 (mmh c.content)) = true := bne_iff_ne.mpr hne
        rw [hb]
        rfl
      · intro heq
        rw [he1]
        have hb : (r1.hash != hex32 (mmh c.content)) = false := by
          simp [bne, heq]
        rw [hb]
        rfl
  · constructor
    · intro _
      exact ⟨by rw [he1]; rfl, by rw [he1]⟩
    · intro r hr
      rw [hr1] at hr
      cases hr

theorem sync_hash_classification_witness :
    (step mmh0 false "2026-03-03T00:00:00" dataW initCounts candB).1 =
      dinsert dataW candB.virt
        { hash := hex32 (mmh0 candB.content), mtime := candB.mtime,
          checked := "2026-03-03T00:00:00", hashed := "2026-03-03T00:00:00",
          exist := true, size := candB.size } ∧
    (step mmh0 false "2026-03-03T00:00:00" dataW initCounts candB).2 =
      { initCounts with found := initCounts.found + 1, added := initCounts.added + 1 } :=
  (sync_hash_classification mmh0 false "2026-03-03T00:00:00" dataW initCounts
    candB).1 (by decide)

/-! ## Order properties of the sort comparison -/

theorem charsLt_asymm : ∀ (a b : List Char), charsLt a b = true → charsLt b a = false := by
  intro a
  induction a with
  | nil =>
    intro b h
    cases b with
    | nil => cases h
    | cons y ys => rfl
  | cons x xs ih =>
    intro b h
    cases b with
    | nil => cases h
    | cons y ys =>
      simp only [charsLt] at h ⊢
      by_cases hxy : x < y
      · rw [if_neg (lt_asymm hxy), if_pos hxy]
      · rw [if_neg hxy] at h
        by_cases hyx : y < x
        · rw [if_pos hyx] at h
          cases h
        · rw [if_neg hyx] at h
          rw [if_neg hyx, if_neg hxy]
          exact ih ys h

theorem charsLt_negtrans : ∀ (a b c : List Char),
    charsLt b a = false → charsLt c b = false → charsLt c a = false := by
  intro a
  induction a with
  | nil =>
    intro b c _ _
    cases c with
    | nil => rfl
    | cons z zs =>
      cases b with
      | nil => rfl
      | cons w ws => rfl
  | cons x xs ih =>
    intro b c h1 h2
    cases c with
    | nil =>
      cases b with
      | nil => simp [charsLt] at h1
      | cons w ws => simp [charsLt] at h2
    | cons z zs =>
      cases b with
      | nil => simp [charsLt] at h1
      | cons w ws =>
        simp only [charsLt] at h1 h2 ⊢
        by_cases hwx : w < x
        · rw [if_pos hwx] at h1
          cases h1
        · rw [if_neg hwx] at h1
          by_cases hzw : z < w
          · rw [if_pos hzw] at h2
            cases h2
          · rw [if_neg hzw] at h2
            have hxw : x ≤ w := not_lt.mp hwx
            have hwz : w ≤ z := not_lt.mp hzw
            have hzx : ¬ z < x := not_lt.mpr (le_trans hxw hwz)
            rw [if_neg hzx]
            by_cases hxz : x < z
            · rw [if_pos hxz]
            · rw [if_neg hxz]
              have hxeqw : x = w := le_antisymm hxw (le_trans hwz (not_lt.mp hxz))
              have hweqz : w = z := le_antisymm hwz (le_trans (not_lt.mp hxz) hxw)
              rw [if_neg (by rw [hxeqw]; exact lt_irrefl w)] at h1
              rw [if_neg (by rw [hweqz]; exact lt_irrefl z)] at h2
              exact ih ws zs h1 h2

theorem candLe_trans (data : Manifest) : ∀ a b c : Cand,
    candLe data a b = true → candLe data b c = true → candLe data a c = true := by
  intro a b c h1 h2
  simp only [candLe, Bool.not_eq_true'] at h1 h2 ⊢
  exact charsLt_negtrans (sortKey data a).data (sortKey data b).data
    (sortKey data c).data h1 h2

theorem candLe_total (data : Manifest) : ∀ a b : Cand,
    (candLe data a b || candLe data b a) = true := by
  intro a b
  simp only [candLe, Bool.or_eq_true, Bool.not_eq_true']
  rcases h : strLt (sortKey data b) (sortKey data a) with _ | _
  · exact Or.inl rfl
  · exact Or.inr (charsLt_asymm _ _ h)

/-! ## Sentinel versus produced timestamps -/

theorem one_lt_digitChar {n : Nat} (h2 : 2 ≤ n) (h9 : n ≤ 9) :
    '1' < Nat.digitChar n := by
  interval_cases n <;> decide

theorem zero_lt_digitChar {n : Nat} (h1 : 1 ≤ n) (h9 : n ≤ 9) :
    '0' < Nat.digitChar n := by
  interval_cases n <;> decide

theorem charsLt_cons_lt {a b : Char} (h : a < b) (as bs : List Char) :
    charsLt (a :: as) (b :: bs) = true := by
  simp [charsLt, h]

theorem charsLt_cons_self (a : Char) (as bs : List Char) :
    charsLt (a :: as) (a :: bs) = charsLt as bs := by
  simp [charsLt]

theorem charsLt_append : ∀ {a b : List Char}, a.length = b.length →
    charsLt a b = true → ∀ u v, charsLt (a ++ u) (b ++ v) = true := by
  intro a
  induction a with
  | nil =>
    intro b hlen h u v
    cases b with
    | nil => cases h
    | cons y ys => simp at hlen
  | cons x xs ih =>
    intro b hlen h u v
    cases b with
    | nil => simp at hlen
    | cons y ys =>
      have hlen2 : xs.length = ys.length := by simpa using hlen
      simp only [charsLt] at h
      simp only [List.cons_append, charsLt]
      by_cases hxy : x < y
      · rw [if_pos hxy]
      · rw [if_neg hxy] at h ⊢
        by_cases hyx : y < x
        · rw [if_pos hyx] at h
          cases h
        · rw [if_neg hyx] at h ⊢
          exact ih hlen2 h u v

theorem sentinel_year_lt (y : Nat) (h1 : 1900 < y) (h2 : y ≤ 9999) :
    charsLt ('1' :: '9' :: '0' :: '0' :: []) (pad4 y) = true := by
  unfold pad4
  rcases Nat.lt_or_ge (y / 1000) 2 with hA | hA
  · have e1 : y / 1000 % 10 = 1 := by omega
    have e2 : y / 100 % 10 = 9 := by omega
    rw [e1, e2]
    have d1 : Nat.digitChar 1 = '1' := rfl
    have d9 : Nat.digitChar 9 = '9' := rfl
    rw [d1, d9, charsLt_cons_self, charsLt_cons_self]
    rcases Nat.eq_zero_or_pos (y / 10 % 10) with hC | hC
    · rw [hC]
      have d0 : Nat.digitChar 0 = '0' := rfl
      rw [d0, charsLt_cons_self]
      have e4 : 1 ≤ y % 10 := by omega
      have e5 : y % 10 ≤ 9 := by omega
      exact charsLt_cons_lt (zero_lt_digitChar e4 e5) _ _
    · have e5 : y / 10 % 10 ≤ 9 := by omega
      exact charsLt_cons_lt (zero_lt_digitChar hC e5) _ _
  · have e0 : y / 1000 % 10 = y / 1000 := by omega
    rw [e0]
    have e9 : y / 1000 ≤ 9 := by omega
    exact charsLt_cons_lt (one_lt_digitChar hA e9) _ _

theorem sentinel_lt_iso (y mo d hh mi ss us : Nat) (h1 : 1900 < y)
    (h2 : y ≤ 9999) :
    strLt sentinelKey (isoTimestamp y mo d hh mi ss us) = true := by
  show charsLt sentinelKey.data (isoTimestamp y mo d hh mi ss us).data = true
  have hs : sentinelKey.data =
      ('1' :: '9' :: '0' :: '0' :: []) ++
        ('-' :: '0' :: '1' :: '-' :: '0' :: '1' :: 'T' :: '0' :: '0' :: ':' ::
         '0' :: '0' :: ':' :: '0' :: '0' :: []) := by decide
  have hi : (isoTimestamp y mo d hh mi ss us).data =
      pad4 y ++ ('-' :: pad2 mo ++ '-' :: pad2 d ++ 'T' :: pad2 hh
        ++ ':' :: pad2 mi ++ ':' :: pad2 ss ++ '.' :: pad6 us) := rfl
  rw [hs, hi]
  exact @charsLt_append ('1' :: '9' :: '0' :: '0' :: []) (pad4 y) rfl
    (sentinel_year_lt y h1 h2) _ _

/-! ## Claim C6 -/

/-- C6: sync processes the candidates in ascending order of the sort key,
which is the checked timestamp of an existing record and the sentinel
1900-01-01T00:00:00 for paths with no record; the sentinel compares strictly
below every ISO timestamp the program can produce (year above 1900), so new
files sort first. -/
theorem sync_candidate_order (data : Manifest) (cs : List Cand) :
    (sortCandidates data cs).Perm cs
    ∧ List.Pairwise (fun a b => candLe data a b = true) (sortCandidates data cs)
    ∧ (∀ c, mlook data c.virt = none → sortKey data c = sentinelKey)
    ∧ (∀ c r, mlook data c.virt = some r → sortKey data c = r.checked)
    ∧ (∀ y mo d hh mi ss us, 1900 < y → y ≤ 9999 →
        strLt sentinelKey (isoTimestamp y mo d hh mi ss us) = true) := by
  refine ⟨List.mergeSort_perm cs (candLe data), ?_, ?_, ?_, ?_⟩
  · exact List.sorted_mergeSort (candLe_trans data) (candLe_total data) cs
  · intro c h
    simp [sortKey, h]
  · intro c r h
    simp [sortKey, h]
  · intro y mo d hh mi ss us h1 h2
    exact sentinel_lt_iso y mo d hh mi ss us h1 h2

theorem sync_candidate_order_witness :
    strLt sentinelKey (isoTimestamp 2026 10 12 0 0 0 0) = true :=
  (sync_candidate_order [] []).2.2.2.2 2026 10 12 0 0 0 0 (by decide) (by decide)

/-! ## Counting lemmas for the status report -/

theorem length_filter_or {α : Type} (l : List α) (A B : α → Bool)
    (h : ∀ e ∈ l, (A e && B e) = false) :
    (l.filter (fun e => A e || B e)).length =
      (l.filter A).length + (l.filter B).length := by
  induction l with
  | nil => rfl
  | cons x xs ih =>
    have hx : (A x && B x) = false := h x (by simp)
    have hxs : ∀ e ∈ xs, (A e && B e) = false :=
      fun e he => h e (List.mem_cons_of_mem _ he)
    rw [List.filter_cons, List.filter_cons, List.filter_cons]
    cases hA : A x <;> cases hB : B x
    · rw [if_neg (by decide), if_neg Bool.false_ne_true, if_neg Bool.false_ne_true]
      exact ih hxs
    · rw [if_pos (by decide), if_neg Bool.false_ne_true, if_pos rfl]
      simp only [List.length_cons]
      rw [ih hxs]
      omega
    · rw [if_pos (by decide), if_pos rfl, if_neg Bool.false_ne_true]
      simp only [List.length_cons]
      rw [ih hxs]
      omega
    · rw [hA, hB] at hx
      simp at hx

theorem filter_unique_key (data : Manifest) (v : String)
    (S : String × FileRecord → Bool)
    (hd : (data.map Prod.fst).Nodup) :
    (data.filter (fun e => e.1 == v && S e)).length =
      if data.any (fun e => e.1 == v && S e) then 1 else 0 := by
  induction data with
  | nil => rfl
  | cons x xs ih =>
    simp only [List.map_cons, List.nodup_cons] at hd
    rw [List.filter_cons]
    cases hx : (x.1 == v && S x)
    · rw [if_neg Bool.false_ne_true, List.any_cons]
      rw [hx]
      simp only [Bool.false_or]
      exact ih hd.2
    · have hx2 : x.1 = v ∧ S x = true := by simpa using hx
      have hnone : xs.filter (fun e => e.1 == v && S e) = [] := by
        rw [List.filter_eq_nil_iff]
        intro e he
        have hne : e.1 ≠ v := by
          intro hc
          exact hd.1 (hx2.1 ▸ hc ▸ List.mem_map.mpr ⟨e, he, rfl⟩)
        simp [hne]
      rw [if_pos rfl, List.any_cons, hx]
      simp only [Bool.true_or, if_pos rfl, hnone]
      rfl

theorem count_match (scan : List Cand) (data : Manifest)
    (R : String × FileRecord → Cand → Bool)
    (hs : (scan.map Cand.virt).Nodup) (hd : (data.map Prod.fst).Nodup) :
    (scan.filter (fun c => data.any (fun e => e.1 == c.virt && R e c))).length =
      (data.filter (fun e =>
        scan.any (fun c => e.1 == c.virt && R e c))).length := by
  induction scan with
  | nil => simp
  | cons c rest ih =>
    simp only [List.map_cons, List.nodup_cons] at hs
    have hdisj : ∀ e ∈ data,
        ((e.1 == c.virt && R e c)
          && rest.any (fun c2 => e.1 == c2.virt && R e c2)) = false := by
      intro e _
      cases hA : (e.1 == c.virt && R e c)
      · simp
      · have hA2 : e.1 = c.virt ∧ R e c = true := by simpa using hA
        simp only [Bool.true_and]
        rw [List.any_eq_false]
        intro c2 hc2
        intro hcontra
        have hc2v : c2.virt = c.virt := by
          have h3 : e.1 = c2.virt ∧ R e c2 = true := by simpa using hcontra
          rw [← h3.1, hA2.1]
        exact hs.1 (hc2v ▸ List.mem_map.mpr ⟨c2, hc2, rfl⟩)
    have hsplit : (data.filter (fun e =>
          (c :: rest).any (fun c2 => e.1 == c2.virt && R e c2))).length
        = (data.filter (fun e => e.1 == c.virt && R e c)).length
          + (data.filter (fun e =>
              rest.any (fun c2 => e.1 == c2.virt && R e c2))).length := by
      have hpt : ∀ e ∈ data, ((c :: rest).any (fun c2 => e.1 == c2.virt && R e c2))
          = ((e.1 == c.virt && R e c)
            || rest.any (fun c2 => e.1 == c2.virt && R e c2)) := by
        intro e _
        rw [List.any_cons]
      rw [List.filter_congr hpt]
      exact length_filter_or data _ _ hdisj
    rw [List.filter_cons, hsplit,
      filter_unique_key data c.virt (fun e => R e c) hd]
    cases hany : data.any (fun e => e.1 == c.virt && R e c)
    · rw [if_neg Bool.false_ne_true, if_neg Bool.false_ne_true]
      simpa using ih hs.2
    · rw [if_pos rfl, if_pos rfl]
      simp only [List.length_cons]
      rw [ih hs.2]
      omega

/-! ## Claim C7 (corrected) -/

/-- C7 counterexample: when two configured real roots map distinct real files
onto the same virtual path, the fresh enumeration lists that path twice and
status counts it as added twice, while only one virtual path is present in
the scan and absent from the manifest; the set-based reading of the added
count in the claim is false on this input. -/
theorem status_added_multiplicity_refuted :
    (status [] [candA, candA]).added = 2
    ∧ addedSpecCount [] [candA, candA] = 1
    ∧ (status [] [candA, candA]).added ≠ addedSpecCount [] [candA, candA] := by
  decide

/-- C7 amended: on a scan whose virtual paths are pairwise distinct (no two
real roots map onto the same virtual path) and a manifest with unique keys,
status counts as added exactly the virtual paths present in the scan but
absent from the manifest, counts as modified exactly the manifest entries
some scan item of the same path contradicts on mtime or size, reports
deleted = total - (scanned - added) exactly, and returns the manifest it
loaded unchanged. -/
theorem status_counts (data : Manifest) (scan : List Cand)
    (hs : (scan.map Cand.virt).Nodup) (hd : (data.map Prod.fst).Nodup) :
    (status data scan).added = addedSpecCount data scan
    ∧ (status data scan).modified = modifiedSpecCount data scan
    ∧ (status data scan).deleted =
        ((status data scan).total : Int)
          - (((status data scan).scanned : Int) - ((status data scan).added : Int))
    ∧ (status data scan).data = data := by
  refine ⟨?_, ?_, rfl, rfl⟩
  · show (scan.filter (fun c => (mlook data c.virt).isNone)).length
        = addedSpecCount data scan
    rw [addedSpecCount, List.dedup_eq_self.mpr hs, List.filter_map,
      List.length_map]
    rfl
  · show (scan.filter (statusModifiedPred data)).length
        = modifiedSpecCount data scan
    have hpt : ∀ c ∈ scan, statusModifiedPred data c
        = data.any (fun e => e.1 == c.virt
            && (!(e.2.mtime == c.mtime) || !(e.2.size == c.size))) := by
      intro c _
      rcases hm : mlook data c.virt with _ | r
      · rw [statusModifiedPred, hm]
        symm
        rw [List.any_eq_false]
        intro e he hcontra
        have h3 : e.1 = c.virt ∧
            (!(e.2.mtime == c.mtime) || !(e.2.size == c.size)) = true := by
          simpa using hcontra
        have hsome : (mlook data c.virt).isSome = true :=
          (mlook_isSome_iff data c.virt).mpr
            (h3.1 ▸ List.mem_map.mpr ⟨e, he, rfl⟩)
        rw [hm] at hsome
        cases hsome
      · rw [statusModifiedPred, hm]
        dsimp only
        cases hmis : (!(r.mtime == c.mtime) || !(r.size == c.size))
        · symm
          rw [List.any_eq_false]
          intro e he hcontra
          have h3 : e.1 = c.virt ∧
              (!(e.2.mtime == c.mtime) || !(e.2.size == c.size)) = true := by
            simpa using hcontra
          have hlook : mlook data c.virt = some e.2 := h3.1 ▸ nodup_mlook hd he
          rw [hm] at hlook
          injection hlook with h4
          rw [← h4] at h3
          rw [h3.2] at hmis
          cases hmis
        · symm
          rw [List.any_eq_true]
          refine ⟨(c.virt, r), mlook_mem hm, ?_⟩
          simp [hmis]
    rw [List.filter_congr hpt, modifiedSpecCount]
    exact count_match scan data
      (fun e c => (!(e.2.mtime == c.mtime) || !(e.2.size == c.size))) hs hd

theorem status_counts_witness :
    (status dataW [candA, candB]).added = addedSpecCount dataW [candA, candB] :=
  (status_counts dataW [candA, candB] (by decide) (by decide)).1

/-! ## Claim C8 -/

theorem mem_keysF (m : Manifest) (p : String) :
    p ∈ keysF m ↔ ∃ r, mlook m p = some r := by
  rw [keysF, List.mem_toFinset, ← mlook_isSome_iff]
  exact Option.isSome_iff_exists

/-- C8: diff computes exactly the set of paths present only in the first
manifest, the set present only in the second, and the set present in both
with differing stored hashes, from the two manifests alone; swapping the
arguments swaps the only-in sets and leaves the differing set unchanged. -/
theorem diff_sets_and_symmetry (A B : Manifest) :
    (∀ p, p ∈ (diff A B).only1 ↔
        ((∃ r, mlook A p = some r) ∧ ¬ ∃ r, mlook B p = some r))
    ∧ (∀ p, p ∈ (diff A B).only2 ↔
        ((∃ r, mlook B p = some r) ∧ ¬ ∃ r, mlook A p = some r))
    ∧ (∀ p, p ∈ (diff A B).different ↔
        (∃ ra rb, mlook A p = some ra ∧ mlook B p = some rb ∧ ra.hash ≠ rb.hash))
    ∧ (diff A B).only1 = (diff B A).only2
    ∧ (diff A B).different = (diff B A).different := by
  refine ⟨?_, ?_, ?_, rfl, ?_⟩
  · intro p
    show p ∈ keysF A \ keysF B ↔ _
    rw [Finset.mem_sdiff, mem_keysF, mem_keysF]
  · intro p
    show p ∈ keysF B \ keysF A ↔ _
    rw [Finset.mem_sdiff, mem_keysF, mem_keysF]
  · intro p
    show p ∈ (keysF A ∩ keysF B).filter (fun f => hashOf A f ≠ hashOf B f) ↔ _
    rw [Finset.mem_filter, Finset.mem_inter, mem_keysF, mem_keysF]
    constructor
    · rintro ⟨⟨⟨ra, hra⟩, ⟨rb, hrb⟩⟩, hne⟩
      refine ⟨ra, rb, hra, hrb, ?_⟩
      intro hc
      apply hne
      simp only [hashOf, hra, hrb, Option.map_some', hc]
    · rintro ⟨ra, rb, hra, hrb, hne⟩
      refine ⟨⟨⟨ra, hra⟩, ⟨rb, hrb⟩⟩, ?_⟩
      simp only [hashOf, hra, hrb, Option.map_some']
      intro hc
      injection hc with hc
      exact hne hc
  · show (keysF A ∩ keysF B).filter (fun f => hashOf A f ≠ hashOf B f)
        = (keysF B ∩ keysF A).filter (fun f => hashOf B f ≠ hashOf A f)
    ext p
    rw [Finset.mem_filter, Finset.mem_filter, Finset.inter_comm]
    constructor
    · rintro ⟨h1, h2⟩
      exact ⟨h1, Ne.symm h2⟩
    · rintro ⟨h1, h2⟩
      exact ⟨h1, Ne.symm h2⟩

/-! ## Claim C9 -/

/-- C9: loading the manifest store from a path where no file exists yields
the empty manifest without error, while a file that is present but cannot be
decompressed or deserialized propagates its error rather than silently
yielding an empty manifest. -/
theorem load_missing_vs_corrupt :
    load_fileset_data StoredFile.absent = Except.ok []
    ∧ (∀ msg, load_fileset_data (StoredFile.corrupt msg) = Except.error msg) :=
  ⟨rfl, fun _ => rfl⟩

/-! ## Claim C10 -/

/-- C10: a selected manifest entry whose virtual path starts with no
configured virtual root resolves to no real path and is reported missing,
exactly the outcome of a resolved real path that does not exist; the check
loop raises nothing and yields one outcome per selected entry. -/
theorem check_unmatched_virtual_root (fsE : String → Bool) (fsH : String → String)
    (jR : String → String → String → String) (paths : List (String × String))
    (mtimeVal : String → Int) (data : Manifest) (pct : Nat) :
    (∀ e ∈ selectToCheck mtimeVal data pct,
        (∀ rv ∈ paths, pyStartsWith e.1 rv.2 = false) →
        checkEntry fsE fsH jR paths e = CheckOutcome.missing)
    ∧ (∀ (e : String × FileRecord) rv,
        List.find? (fun rv => pyStartsWith e.1 rv.2) paths = some rv →
        fsE (jR rv.1 rv.2 e.1) = false →
        checkEntry fsE fsH jR paths e = CheckOutcome.missing)
    ∧ (runCheck fsE fsH jR paths (selectToCheck mtimeVal data pct)).length
        = (selectToCheck mtimeVal data pct).length := by
  refine ⟨?_, ?_, List.length_map _ _⟩
  · intro e _ hno
    have hnone : paths.find? (fun rv => pyStartsWith e.1 rv.2) = none := by
      rw [List.find?_eq_none]
      intro rv hrv
      rw [hno rv hrv]
      exact Bool.false_ne_true
    rw [checkEntry, hnone]
  · intro e rv hfind hfalse
    rw [checkEntry, hfind]
    dsimp only
    rw [hfalse]
    rfl

theorem check_unmatched_virtual_root_witness :
    checkEntry (fun _ => false) (fun _ => "") (fun rp _ v => rp ++ v)
      [("r", "v")] ("v/x", recW) = CheckOutcome.missing :=
  (check_unmatched_virtual_root (fun _ => false) (fun _ => "")
    (fun rp _ v => rp ++ v) [("r", "v")] (fun _ => 0) [] 100).2.1
    ("v/x", recW) ("r", "v") (by decide) rfl

/-! ## Claim C4 (corrected) -/

/-- C4 counterexample: configuration resolution does not reject an
unsupported algorithm name — loading the single line algo=sha1 succeeds and
returns the name unvalidated — while the unsupported-algorithm ValueError
comes from hash_file, which runs only when a file is hashed mid-scan. -/
theorem algo_validation_at_load_refuted :
    load_config ["algo=sha1"] = Except.ok ("sha1", [])
    ∧ hash_file mmh0 [] "sha1" = Except.error "Unsupported algorithm: sha1" :=
  ⟨rfl, rfl⟩

/-- C4 amended: selecting any algorithm name other than murmur128 passes
configuration loading unvalidated, and the unsupported-algorithm error is
raised by hash_file at hashing time, the first time a content hash is
computed during a scan (not at configuration-resolution time). -/
theorem algo_error_raised_at_hash_time (mmh : List Nat → Nat)
    (content : List Nat) (algo : String) (h : algo ≠ "murmur128") :
    hash_file mmh content algo
      = Except.error ("Unsupported algorithm: " ++ algo)
    ∧ load_config ["algo=sha1"] = Except.ok ("sha1", []) := by
  refine ⟨?_, rfl⟩
  rw [hash_file, if_pos h]

theorem algo_error_raised_at_hash_time_witness :
    hash_file mmh0 [] "sha1"
      = Except.error ("Unsupported algorithm: " ++ "sha1")
    ∧ load_config ["algo=sha1"] = Except.ok ("sha1", []) :=
  algo_error_raised_at_hash_time mmh0 [] "sha1" (by decide)
